import Mathlib

/-!
Verification development for the go-rst reStructuredText parser (lexer in
parse/lex.go, tree-building parser in the parse package's parser file,
node model in parse/node.go).

Modelling conventions, stated once:

* Go strings are indexed by bytes and decoded rune-by-rune with
  utf8.DecodeRuneInString.  We model the input as a List Char (one entry
  per rune, each of width 1).  Byte offsets and rune offsets agree on
  ASCII input; every concrete input appearing below is ASCII, so the
  positions and lengths computed here are exactly the Go ones.
* Go runes are int32 values.  The lexer compares runes against the
  sentinel eof = -1, and utf8.DecodeRuneInString of an empty suffix
  yields RuneError = 0xFFFD (not -1).  We therefore model runes as Int:
  current() returns 0xFFFD at end of input, next() returns -1.
* Go ints are modelled as Nat where the source keeps them nonnegative.
  The one transient exception (lexStart can briefly make start = pos+1,
  giving tokenLength = -1 in Go and 0 here) is harmless: the only use is
  the comparison tokenLength == 1, false for both values, and the state
  is normalised by the very next call to next() before any slicing.
* The lexer runs in its own goroutine and hands items over an unbuffered
  channel.  The parser is the single consumer, so the observable
  behaviour is the emitted item sequence; we accumulate it in a list.
  Pulling from the channel after the lexer goroutine stopped blocks
  forever; that case surfaces as the explicit .blocked failure.
* Go panics (nil pointer dereference, slice index out of range) are
  modelled as explicit .fault results.
-/

namespace GoRst

/-! ## Lexer core state (struct lexer in lex.go, minus name/channel) -/

/-- Rune sentinel returned by next() at end of input (const eof in lex.go). -/
def eofRune : Int := -1

/-- Rune returned by utf8.DecodeRuneInString on an empty or invalid suffix. -/
def runeError : Int := 0xFFFD

/-- Cursor state of the lexer: input, pos, start and width fields. -/
structure Core where
  input : List Char
  pos : Nat
  start : Nat
  width : Nat
  deriving Repr, DecidableEq

/-- current() in lex.go: decode the rune at pos without advancing.
At end of input DecodeRuneInString returns RuneError, not eof. -/
def currentR (c : Core) : Int :=
  match c.input.get? c.pos with
  | some ch => (ch.toNat : Int)
  | none => runeError

/-- next() in lex.go: advance one rune and return it, or eof at the end
of input (setting width to 0). -/
def nextR (c : Core) : Int × Core :=
  match c.input.get? c.pos with
  | some ch => ((ch.toNat : Int), { c with pos := c.pos + 1, width := 1 })
  | none => (eofRune, { c with width := 0 })

/-- backup() in lex.go: undo one next() using the recorded width. -/
def backupR (c : Core) : Core :=
  { c with pos := c.pos - c.width }

/-- peek() in lex.go: next() followed by backup(). -/
def peekR (c : Core) : Int × Core :=
  let (r, c') := nextR c
  (r, backupR c')

/-- isSpace in lex.go: space, tab, newline or carriage return. -/
def isSpaceR (r : Int) : Bool :=
  r = 32 || r = 9 || r = 10 || r = 13

/-- isEndOfLine in lex.go: carriage return or newline. -/
def isEOLR (r : Int) : Bool :=
  r = 13 || r = 10

/-- Valid section adornment runes (var sectionAdornments in lex.go). -/
def sectionAdornments : List Int :=
  [33, 34, 35, 36, 39, 37, 38, 40, 41, 42,
   43, 44, 45, 46, 47, 58, 59, 60, 61, 62, 63, 64, 91, 92,
   93, 94, 95, 96, 123, 124, 125, 126]

/-- isSectionAdornment in lex.go: membership in the fixed adornment set. -/
def isSectionAdornment (r : Int) : Bool :=
  sectionAdornments.contains r

/-- advance(to) in lex.go: next() until eof is returned or the current
rune equals the target.  Structural recursion on explicit fuel so that
concrete runs reduce inside the kernel; loopFuel below always hands the
loop enough fuel, because every iteration that continues has consumed a
rune (next() returned non-eof), which can happen at most input.length
times from any position.  The fuel-exhausted branch is therefore
unreachable at every call site in this file. -/
def advanceLoop (tgt : Int) : Nat → Core → Core
  | 0, c => c
  | fuel + 1, c =>
    let (r, c') := nextR c
    if r = eofRune || tgt = currentR c' then c'
    else advanceLoop tgt fuel c'

/-- Fuel budget that can never be exhausted by a loop whose continuing
iterations each advance pos by one rune. -/
def loopFuel (c : Core) : Nat := c.input.length + 1

/-- advance(to) in lex.go with its fuel supplied. -/
def advanceR (tgt : Int) (c : Core) : Core := advanceLoop tgt (loopFuel c) c

/-! ## isSection (lex.go lines 202-264) -/

/-- Inner whitespace loop of isSection: skip space runes, counting
end-of-line runes in newLineNum; a second newline (newLineNum already 1)
makes the whole lookahead return exit(false), modelled as .error
carrying the lexer state at that moment. -/
def wsLoop : Nat → Nat → Core → Except Core (Nat × Core)
  | 0, nl, c => .ok (nl, c)
  | fuel + 1, nl, c =>
    if isSpaceR (currentR c) then
      if isEOLR (currentR c) then
        if nl = 1 then .error c
        else wsLoop fuel (nl + 1) (nextR c).2
      else wsLoop fuel nl (nextR c).2
    else .ok (nl, c)

/-- Outer for-j loop of isSection over lookPositions positions, carrying
newLineNum, lastAdornment, runePositions and matchCount.  A rune
mismatch or the whitespace loop's double-newline produce exit(false),
modelled as .error with the state at that moment. -/
def secLoop : Nat → Nat → Int → List Int → Nat → Core →
    Except Core (List Int × Nat × Core)
  | 0, _, _, rs, mc, c => .ok (rs, mc, c)
  | j + 1, nl, last, rs, mc, c =>
    match wsLoop (loopFuel c) nl c with
    | .error c' => .error c'
    | .ok (nl', c') =>
      let cur := currentR c'
      if isSectionAdornment cur then
        if last ≠ 0 ∧ cur ≠ last then .error c'
        else secLoop j nl' cur (rs ++ [cur]) (mc + 1) (nextR c').2
      else secLoop j nl' last rs mc (nextR c').2

/-- Tail of isSection after the two-adornment fast path failed: advance
to the end of the line, the (dead) current()==eof test, the j loop and
the final match-count check.  cPos is the entry position captured for
the exit closure. -/
def isSectionTail (cPos : Nat) (c : Core) : Bool × Core :=
  let c1 := advanceR 10 c
  if currentR c1 = eofRune then (false, c1)
  else
    match secLoop 2 0 0 [] 0 c1 with
    | .error c2 => (false, { c2 with pos := cPos })
    | .ok (rs, mc, c2) =>
      if rs.length = 0 ∨ mc ≠ 2 then (false, { c2 with pos := cPos })
      else (true, { c2 with pos := cPos })

/-- isSection in lex.go.  The boolean is the lookahead verdict; the
returned Core is the lexer state afterwards (pos restored by the exit
closure on every live path, width left as the loops set it). -/
def isSection (l : Core) : Bool × Core :=
  let cPos := l.pos
  let c1 := currentR l
  if isSectionAdornment c1 then
    let pk1 := peekR l
    if isSectionAdornment pk1.1 then
      let pk2 := peekR pk1.2
      if c1 = pk2.1 then (true, pk2.2)
      else isSectionTail cPos pk2.2
    else isSectionTail cPos pk1.2
  else isSectionTail cPos l

/-- current() never returns the eof sentinel: DecodeRuneInString yields
a nonnegative rune (RuneError at end of input), while eof is -1.  This
is why the post-advance eof test inside isSection is dead code. -/
theorem currentR_ne_eof (c : Core) : currentR c ≠ eofRune := by
  unfold currentR eofRune runeError
  rcases c.input.get? c.pos with _ | ch
  · simp
  · simp

/-- peek() leaves pos unchanged: next() moves pos forward by exactly the
width that backup() then subtracts. -/
theorem peekR_pos (c : Core) : ((peekR c).2).pos = c.pos := by
  unfold peekR nextR backupR
  rcases c.input.get? c.pos with _ | ch <;> simp

/-- isSectionTail always restores pos to the captured entry position:
the eof branch is unreachable and every other branch runs the exit
closure. -/
theorem isSectionTail_pos (cPos : Nat) (c : Core) :
    ((isSectionTail cPos c).2).pos = cPos := by
  unfold isSectionTail
  simp only [if_neg (currentR_ne_eof (advanceR 10 c))]
  split
  · rfl
  · split <;> rfl

/-- C7: the section lookahead test isSection restores the lexer cursor
(pos) to its value at entry before returning, on every return path and
for every outcome, so running the test changes no cursor position
observable by the token stream. -/
theorem C7_isSection_restores_pos (l : Core) :
    ((isSection l).2).pos = l.pos := by
  unfold isSection
  by_cases h1 : isSectionAdornment (currentR l)
  · simp only [if_pos h1]
    by_cases h2 : isSectionAdornment (peekR l).1
    · simp only [if_pos h2]
      by_cases h3 : currentR l = (peekR (peekR l).2).1
      · simp only [if_pos h3]
        rw [peekR_pos, peekR_pos]
      · simp only [if_neg h3]
        exact isSectionTail_pos l.pos _
    · simp only [if_neg h2]
      exact isSectionTail_pos l.pos _
  · simp only [if_neg h1]
    exact isSectionTail_pos l.pos l

/-! ## Items (struct item in lex.go; the later parser source calls the
fields Type, Position, Line, Length and Text, the lexer source
ElementType, Position, Line, Length and Value; they are one struct) -/

/-- itemElement in lex.go. -/
inductive ItemType where
  | eofTok | errorTok | title | sectionAdornment | paragraph
  | blockquote | literalBlock | systemMessage | space | blankLine
  deriving Repr, DecidableEq

/-- One token: kind, 1-based Position, Line, Length and Text/Value. -/
structure Item where
  typ : ItemType
  position : Nat
  line : Nat
  length : Nat
  text : List Char
  deriving Repr, DecidableEq

/-- Number of newline characters in a character list (strings.Count of
a slice of the input). -/
def countNL (l : List Char) : Nat :=
  (l.filter (fun ch => ch = '\n')).length

/-- lineNumber() in lex.go: 1 + strings.Count(input[:pos-1], "\n").
Go would panic slicing input[:-1] when pos = 0; no emit in this file is
reached with pos = 0 (the eof emit on wholly empty input would be, and
would crash the Go program), and Nat subtraction models that corner as
an empty slice. -/
def lineNumber (input : List Char) (pos : Nat) : Nat :=
  1 + countNL (input.take (pos - 1))

/-- emit(t) in lex.go: the defensive one-rune advance for empty
pending text mid-input, then capture input[start:pos] as the value,
Position = start+1, Line = lineNumber(), Length = len(value); start is
reset to pos afterwards. -/
def emitItem (t : ItemType) (c : Core) : Item × Core :=
  let c :=
    if c.start = c.pos ∧ c.pos < c.input.length then
      { c with pos := c.pos + 1 }
    else c
  let val := (c.input.drop c.start).take (c.pos - c.start)
  (⟨t, c.start + 1, lineNumber c.input c.pos, val.length, val⟩,
    { c with start := c.pos })

/-! ## The lexer state machine (run() in lex.go).

Each state function of the Go lexer is a machine phase; one machine
step is one loop iteration of the current state function (for lexStart,
lexTitle and lexSectionAdornment) or one whole state-function body (for
lexSpace and lexSection, whose internal loops always terminate).  The
inline call of lexSectionAdornment from lexSection discards the
returned state function, so the adornment phase records whether to
return to lexStart (inline call) or to lexSection (dispatched). -/

/-- Machine phases: the state functions of the Go lexer. -/
inductive Phase where
  | start
  | space
  | section
  | title
  | adorn (retToStart : Bool)
  deriving Repr, DecidableEq

/-- Full lexer state: cursor fields, lastItem, the list of items handed
to the channel so far, and the current phase. -/
structure LexM where
  core : Core
  lastItem : Option Item
  emitted : List Item
  phase : Phase
  deriving Repr, DecidableEq

/-- Result of one machine step: continue, the whole lexer finished
(run()'s state became nil after emitting EOF), or a Go runtime panic
(nil lastItem dereference in lexSection). -/
inductive StepRes where
  | cont (s : LexM)
  | finished (s : LexM)
  | fault
  deriving Repr, DecidableEq

/-- emit wrapped at machine level: update core, lastItem and the
emitted list. -/
def emitM (t : ItemType) (m : LexM) : LexM :=
  let (it, c') := emitItem t m.core
  { m with core := c', lastItem := some it, emitted := m.emitted ++ [it] }

/-- Whitespace-skipping loop of lexSpace (for isSpace(current) next()),
with fuel like the other always-terminating loops. -/
def spaceSkip : Nat → Core → Core
  | 0, c => c
  | fuel + 1, c =>
    if isSpaceR (currentR c) then spaceSkip fuel (nextR c).2
    else c

/-- unicode.IsPrint restricted by the r <= unicode.MaxASCII guard of
lexSection: for ASCII runes IsPrint holds exactly on 0x20..0x7E.  The
guard makes the conjunction exact for every rune value. -/
def goPrintASCII (r : Int) : Bool :=
  32 ≤ r && r ≤ 126

/-- One loop iteration of lexStart (lex.go lines 278-316), including
the trailing next()==eof check; on break it flushes a pending paragraph
and emits EOF, finishing the machine. -/
def stepStart (m : LexM) : StepRes :=
  let c := m.core
  let tl := c.pos - c.start
  let r := currentR c
  let afterSwitch : LexM ⊕ (Phase × LexM) :=
    if tl = 1 then
      if isEOLR r then
        let m1 := emitM .blankLine m
        .inl { m1 with core := { m1.core with start := m1.core.start + 1 } }
      else if isSpaceR r then .inr (.space, m)
      else
        let (b, c') := isSection c
        if b then .inr (.section, { m with core := c' })
        else .inl { m with core := c' }
    else if isEOLR r then
      if c.pos > c.start then
        let m1 := emitM .paragraph m
        .inl { m1 with core := { m1.core with start := m1.core.start + 1 } }
      else if c.start = c.pos then .inl (emitM .blankLine m)
      else .inl m
    else .inl m
  match afterSwitch with
  | .inr (ph, m') => .cont { m' with phase := ph }
  | .inl m' =>
    let (r', c') := nextR m'.core
    let m2 := { m' with core := c' }
    if r' = eofRune then
      let m3 := if m2.core.pos > m2.core.start then emitM .paragraph m2 else m2
      .finished (emitM .eofTok m3)
    else .cont { m2 with phase := .start }

/-- lexSpace (lex.go lines 319-330) as one step: skip the space run,
emit a Space item if anything accumulated, then one extra next(). -/
def stepSpace (m : LexM) : StepRes :=
  let c := spaceSkip (loopFuel m.core) m.core
  let m1 := { m with core := c }
  if c.start < c.pos then
    let m2 := emitM .space m1
    .cont { m2 with core := (nextR m2.core).2, phase := .start }
  else .cont { m1 with phase := .start }

/-- lexSection (lex.go lines 334-352) as one step.  Dereferencing
lastItem when no item was ever emitted is a Go nil-pointer panic,
modelled as .fault.  The inline lexSectionAdornment call discards the
returned state function, so that phase returns to start instead of
section. -/
def stepSection (m : LexM) : StepRes :=
  let (r, c') := nextR m.core
  let m1 := { m with core := c' }
  if isSectionAdornment r then
    match m1.lastItem with
    | none => .fault
    | some it =>
      if it.typ ≠ ItemType.title then .cont { m1 with phase := .adorn false }
      else .cont { m1 with phase := .adorn true }
  else if isSpaceR r then .cont { m1 with phase := .space }
  else if r ≤ 127 && goPrintASCII r then .cont { m1 with phase := .title }
  else if isEOLR r then
    .cont { m1 with core := { m1.core with start := m1.core.start + 1 }, phase := .start }
  else .cont { m1 with phase := .start }

/-- One loop iteration of lexTitle (lex.go lines 356-369): next(), then
if peek() is a newline emit the Title, advance start and pos past the
newline, and return to lexSection; otherwise keep looping. -/
def stepTitle (m : LexM) : StepRes :=
  let c1 := (nextR m.core).2
  let (p, c2) := peekR c1
  if p = 10 then
    let m1 := emitM .title { m with core := c2 }
    .cont { m1 with
            core := { m1.core with start := m1.core.start + 1, pos := m1.core.pos + 1 },
            phase := .section }
  else .cont { m with core := c2, phase := .title }

/-- One loop iteration of lexSectionAdornment (lex.go lines 373-387),
identical in shape to lexTitle; retToStart tells whether this run was
the inline call from lexSection. -/
def stepAdorn (retToStart : Bool) (m : LexM) : StepRes :=
  let c1 := (nextR m.core).2
  let (p, c2) := peekR c1
  if p = 10 then
    let m1 := emitM .sectionAdornment { m with core := c2 }
    .cont { m1 with
            core := { m1.core with start := m1.core.start + 1, pos := m1.core.pos + 1 },
            phase := if retToStart then .start else .section }
  else .cont { m with core := c2, phase := .adorn retToStart }

/-- One machine step: dispatch on the current phase. -/
def stepFn (m : LexM) : StepRes :=
  match m.phase with
  | .start => stepStart m
  | .space => stepSpace m
  | .section => stepSection m
  | .title => stepTitle m
  | .adorn b => stepAdorn b m

/-- Result of running the machine for a bounded number of steps. -/
inductive LexRes where
  | running (s : LexM)
  | finished (items : List Item)
  | fault
  deriving Repr, DecidableEq

/-- Run the lexer machine for at most the given number of steps. -/
def lexSteps : Nat → LexM → LexRes
  | 0, m => .running m
  | n + 1, m =>
    match stepFn m with
    | .cont m' => lexSteps n m'
    | .finished m' => .finished m'.emitted
    | .fault => .fault

/-- Initial machine state for an input (lex() in lex.go). -/
def lexInit (input : List Char) : LexM :=
  ⟨⟨input, 0, 0, 0⟩, none, [], .start⟩

/-- Splitting a run of the machine at an intermediate step count. -/
theorem lexSteps_add (a b : Nat) (m : LexM) :
    lexSteps (a + b) m =
      match lexSteps a m with
      | .running m' => lexSteps b m'
      | r => r := by
  induction a generalizing m with
  | zero => simp [lexSteps]
  | succ n ih =>
    have : n + 1 + b = (n + b) + 1 := by omega
    rw [this]
    show (match stepFn m with
          | .cont m' => lexSteps (n + b) m'
          | .finished m' => LexRes.finished m'.emitted
          | .fault => LexRes.fault) = _
    rcases h : stepFn m with m' | m' | _
    · simp [lexSteps, h, ih]
    · simp [lexSteps, h]
    · simp [lexSteps, h]

/-- More fuel cannot change an already finished run. -/
theorem lexSteps_finished_absorb {a : Nat} {m : LexM} {out : List Item}
    (h : lexSteps a m = .finished out) (b : Nat) :
    lexSteps (a + b) m = .finished out := by
  rw [lexSteps_add, h]

/-- More fuel cannot change an already faulted run. -/
theorem lexSteps_fault_absorb {a : Nat} {m : LexM}
    (h : lexSteps a m = .fault) (b : Nat) :
    lexSteps (a + b) m = .fault := by
  rw [lexSteps_add, h]

/-- Items of a finished lexer run (empty when the run did not finish). -/
def lexItemsOf (fuel : Nat) (s : String) : List Item :=
  match lexSteps fuel (lexInit s.toList) with
  | .finished items => items
  | _ => []

/-! ## Material for C2: divergence of lexTitle on input without a
trailing newline. -/

/-- Input on which the lexer never terminates: the title loop of
lexTitle waits for a newline that never arrives once the cursor reached
end of input. -/
def c2Input : List Char := "AB\n==".toList

/-- The reachable configuration in which the lexTitle loop is stuck:
cursor at end of input, width 0, nothing emitted. -/
def c2Stuck : LexM := ⟨⟨c2Input, 5, 0, 0⟩, none, [], .title⟩

/-- In the stuck configuration one more lexTitle iteration reproduces
the configuration exactly: next() at end of input only re-sets width to
0 and peek() keeps returning eof, never the expected newline. -/
theorem c2Stuck_self : stepFn c2Stuck = .cont c2Stuck := by decide

/-- The machine reaches the stuck configuration in 6 steps. -/
theorem c2_reaches_stuck : lexSteps 6 (lexInit c2Input) = .running c2Stuck := by
  decide

/-- From the stuck configuration the machine runs forever. -/
theorem c2Stuck_runs (n : Nat) : lexSteps n c2Stuck = .running c2Stuck := by
  induction n with
  | zero => rfl
  | succ k ih =>
    show (match stepFn c2Stuck with
          | .cont m' => lexSteps k m'
          | .finished m' => LexRes.finished m'.emitted
          | .fault => LexRes.fault) = _
    rw [c2Stuck_self]
    exact ih

/-! ## Material for C6: the bare-adornment input panics the lexer. -/

/-- Input of scenario 3: a bare adornment line. -/
def c6Input : List Char := "=====\n".toList

/-- On the bare adornment line the machine panics after 3 steps:
lexStart sees a two-adornment lookahead and enters lexSection before
anything was emitted, and lexSection dereferences the nil lastItem. -/
theorem c6_fault_at_3 : lexSteps 3 (lexInit c6Input) = .fault := by decide

/-! ## Material for C9: token positions are whole-input offsets. -/

/-- Definition following the claim's words (for comparison with the
code, not taken from the source): the 1-based column of an offset
within its own line, i.e. one more than the number of characters
between the last newline before the offset and the offset. -/
def specColumnWithinLine (input : List Char) (off : Nat) : Nat :=
  ((input.take off).reverse.takeWhile (fun ch => ch ≠ '\n')).length + 1

/-- Definition following the claim's words (for comparison with the
code, not taken from the source): 1 plus the number of newlines
consumed before the token start offset. -/
def specLineOfStart (input : List Char) (off : Nat) : Nat :=
  1 + countNL (input.take off)

/-! ## Parser data model (parser source file of the parse package).

The node constructors newSection, newSystemMessage, newLiteralBlock and
newBlockQuote that the parser calls are not part of the provided source
(the node file at hand is an earlier revision with different
signatures); their field layout is modelled from the spec's data-model
section and from the field mapping visible in that earlier node file.
All control flow below is translated from the provided parser source. -/

/-- systemMessageLevel in the parser source. -/
inductive SMLevel where
  | levelInfo | levelWarning | levelError | levelSevere
  deriving Repr, DecidableEq

/-- parserMessage in the parser source. -/
inductive ParserMessage where
  | warningShortUnderline
  | errorUnexpectedSectionTitle
  | errorUnexpectedSectionTitleOrTransition
  deriving Repr, DecidableEq

/-- parserMessage.Message(): the fixed explanation string per kind. -/
def ParserMessage.MessageStr : ParserMessage → List Char
  | .warningShortUnderline => "Title underline too short.".toList
  | .errorUnexpectedSectionTitle => "Unexpected section title.".toList
  | .errorUnexpectedSectionTitleOrTransition =>
      "Unexpected section title or transition.".toList

/-- parserMessage.Level(): severity per kind. -/
def ParserMessage.LevelOf : ParserMessage → SMLevel
  | .warningShortUnderline => .levelWarning
  | .errorUnexpectedSectionTitle => .levelSevere
  | .errorUnexpectedSectionTitleOrTransition => .levelSevere

/-- Node kinds the parser constructs. -/
inductive NKind where
  | section | paragraph | blockQuote | systemMessage | literalBlock
  deriving Repr, DecidableEq

/-- One heap-allocated node.  Go nodes are mutated through shared
pointers after insertion (a Section's NodeList receives children while
the Section already sits in the tree and in sectionLevels), so nodes
live in a heap list and refer to children by index. -/
structure HNode where
  kind : NKind
  id : Nat := 0
  line : Nat := 0
  startPos : Nat := 0
  text : List Char := []
  length : Nat := 0
  level : Nat := 0
  severity : SMLevel := .levelInfo
  underRune : Int := 0
  underLength : Nat := 0
  overline : Bool := false
  children : List Nat := []
  deriving Repr, DecidableEq

/-- Entries of Tree.Errors.  Go stores formatted strings (name, lexer
line number, message); the claims only inspect whether the list is
empty, so we record the errorf call site as a tag. -/
inductive PErr where
  | duplicateSection
  | overlineLengthMismatch
  | overlineTextMismatch
  | notImplemented (t : ItemType)
  deriving Repr, DecidableEq

/-- Failure modes of the parser: a Go runtime panic (nil dereference or
index out of range), blocking forever on the exhausted token channel,
or the fuel bound of the embedding (never reached in this file's runs). -/
inductive PFail where
  | fault | blocked | fuelOut
  deriving Repr, DecidableEq

/-- The parser's token window: token [7]*item.  A 7-field structure of
optional items ( none is a Go nil entry). -/
structure TokWindow where
  t0 : Option Item := none
  t1 : Option Item := none
  t2 : Option Item := none
  t3 : Option Item := none
  t4 : Option Item := none
  t5 : Option Item := none
  t6 : Option Item := none
  deriving Repr, DecidableEq

/-- Read window cell i.  Reads with i > 6 would panic in Go; they occur
nowhere in this file (the parser only reads computed indices <= 6), and
are mapped to none. -/
def wget (w : TokWindow) : Nat → Option Item
  | 0 => w.t0
  | 1 => w.t1
  | 2 => w.t2
  | 3 => w.t3
  | 4 => w.t4
  | 5 => w.t5
  | 6 => w.t6
  | _ => none

/-- Write window cell i; none signals the Go index-out-of-range panic. -/
def wset (w : TokWindow) (i : Nat) (v : Option Item) : Option TokWindow :=
  match i with
  | 0 => some { w with t0 := v }
  | 1 => some { w with t1 := v }
  | 2 => some { w with t2 := v }
  | 3 => some { w with t3 := v }
  | 4 => some { w with t4 := v }
  | 5 => some { w with t5 := v }
  | 6 => some { w with t6 := v }
  | _ => none

/-- One leftward shift of the window (inner loop of skip()): cell x
takes cell x+1's value and the last cell becomes nil. -/
def shiftLeft (w : TokWindow) : TokWindow :=
  ⟨w.t1, w.t2, w.t3, w.t4, w.t5, w.t6, none⟩

/-- One rightward shift (loop of backup()). -/
def shiftRight (w : TokWindow) : TokWindow :=
  ⟨none, w.t0, w.t1, w.t2, w.t3, w.t4, w.t5⟩

/-- skip(num): shift left num times. -/
def skipT : Nat → TokWindow → TokWindow
  | 0, w => w
  | n + 1, w => skipT n (shiftLeft w)

/-- Tree state of the parser: window and counts, the remaining lexer
item stream (the channel), node heap, root list, insertion target
(nodeTarget: none = the root list, some p = node p's child list),
sectionLevels as heap indices, accumulated errors, the id counter and
the indent bookkeeping. -/
structure PTree where
  window : TokWindow
  tokenPeekCount : Nat
  tokenBackupCount : Nat
  stream : List Item
  heap : List HNode
  root : List Nat
  target : Option Nat
  levels : List Nat
  errs : List PErr
  id : Nat
  indentWidth : Nat
  indentLevel : Nat
  deriving Repr, DecidableEq

/-- Heap read with a default (reads in this file are always in range). -/
def heapGet (t : PTree) (i : Nat) : HNode :=
  (t.heap.get? i).getD { kind := .paragraph }

/-- Heap write (List.set is the identity out of range; all writes in
this file are in range). -/
def heapSet (t : PTree) (i : Nat) (h : HNode) : PTree :=
  { t with heap := t.heap.set i h }

/-- Allocate a node, assigning the shared monotonically increasing id
(spec data-model section). -/
def allocNode (t : PTree) (h : HNode) : Nat × PTree :=
  (t.heap.length,
   { t with heap := t.heap ++ [{ h with id := t.id }], id := t.id + 1 })

/-- tokenZero in the parser source. -/
def tokenZero : Nat := 3

/-- Tree.peekBack(pos): read the window pos cells behind tokenZero. -/
def peekBackT (t : PTree) (pos : Nat) : Option Item :=
  wget t.window (tokenZero - pos)

/-- Loop body of Tree.peek(pos), iterating i = 0 .. pos-1 and carrying
nItem exactly as the source does. -/
def peekIter : Nat → Nat → Option Item → PTree → Except PFail (Option Item × PTree)
  | 0, _, nItem, t => .ok (nItem, t)
  | n + 1, i, nItem, t =>
    if t.tokenPeekCount > i then
      peekIter n (i + 1) (wget t.window (tokenZero + i)) t
    else
      match wget t.window (tokenZero + t.tokenPeekCount + i + 1) with
      | none =>
        match t.stream with
        | [] => .error .blocked
        | it :: rest =>
          let pc := t.tokenPeekCount + 1
          match wset t.window (tokenZero + pc + i) (some it) with
          | none => .error .fault
          | some w' =>
            peekIter n (i + 1) (some it)
              { t with tokenPeekCount := pc, window := w', stream := rest }
      | some _ =>
        peekIter n (i + 1) (wget t.window (tokenZero + t.tokenPeekCount + i)) t

/-- Tree.peek(pos); pos < 1 is a deliberate Go panic. -/
def peekT (pos : Nat) (t : PTree) : Except PFail (Option Item × PTree) :=
  if pos < 1 then .error .fault
  else peekIter pos 0 none t

/-- Tree.next(): skip by the peek count (or by one, pulling a fresh
item into tokenZero), reset both counts, return token[tokenZero]. -/
def nextT (t : PTree) : Except PFail (Option Item × PTree) :=
  if t.tokenPeekCount > 0 then
    let w := skipT t.tokenPeekCount t.window
    .ok (wget w tokenZero,
         { t with window := w, tokenBackupCount := 0, tokenPeekCount := 0 })
  else
    let w := skipT 1 t.window
    match t.stream with
    | [] => .error .blocked
    | it :: rest =>
      let w' := { w with t3 := some it }
      .ok (some it,
           { t with window := w', stream := rest,
                    tokenBackupCount := 0, tokenPeekCount := 0 })

/-- Tree.backup(): shift right once, bump the backup count, return
token[tokenZero - count] (a negative index would panic). -/
def backupT (t : PTree) : Except PFail (Option Item × PTree) :=
  let bc := t.tokenBackupCount + 1
  if bc > tokenZero then .error .fault
  else
    let w := shiftRight t.window
    .ok (wget w (tokenZero - bc),
         { t with window := w, tokenBackupCount := bc })

/-! ## Node constructors -/

/-- Modelled from the spec: newSection(title, overAdorn, underAdorn,
id) is called by the parser but absent from the provided source; per
the spec's data model (and the earlier node file's field mapping) the
Section takes its text, length, line and start position from the title
item, level 0 until the registry assigns one, and an underline record
holding the first rune of the underline item's value and that item's
length.  u0 is that first rune; the caller checks emptiness first
because Go's indexing of Value.(string)[0] panics on an empty value. -/
def allocSection (t : PTree) (title : Item) (over : Bool) (underAdorn : Item)
    (u0 : Int) : Nat × PTree :=
  allocNode t
    { kind := .section, line := title.line, startPos := title.position,
      text := title.text, length := title.length, level := 0,
      underRune := u0, underLength := underAdorn.length, overline := over }

/-- newParagraph(i, id) per the node model: text, length, line and
start position come from the item. -/
def allocParagraph (t : PTree) (i : Item) : Nat × PTree :=
  allocNode t
    { kind := .paragraph, text := i.text, length := i.length,
      line := i.line, startPos := i.position }

/-- Modelled from the spec: newSystemMessage(i, level, id) builds a
SystemMessage node carrying the severity and the line of the item it
was built from. -/
def allocSystemMessage (t : PTree) (line : Nat) (sev : SMLevel) : Nat × PTree :=
  allocNode t { kind := .systemMessage, line := line, severity := sev }

/-- Modelled from the spec: newLiteralBlock(i, id) carries the
offending text and its (pre-computed) length. -/
def allocLiteralBlock (t : PTree) (txt : List Char) (len : Nat) : Nat × PTree :=
  allocNode t { kind := .literalBlock, text := txt, length := len }

/-- Modelled from the spec: newBlockQuote(i, level, id) carries the
indent level and line. -/
def allocBlockQuote (t : PTree) (lvl : Nat) (line : Nat) : Nat × PTree :=
  allocNode t { kind := .blockQuote, level := lvl, line := line }

/-! ## Section level registry (sectionLevels in the parser source) -/

/-- sectionLevels.FindByRune: first registered section whose underline
rune matches, as a heap index; nil when absent. -/
def findByRune (t : PTree) (r : Int) : Option Nat :=
  t.levels.find? (fun idx => (heapGet t idx).underRune = r)

/-- sectionLevels.Add: if a section with the same rune exists and the
same text, report exists (level left untouched, nothing appended); same
rune with different text copies that section's level onto the new one
and appends it; an unseen rune assigns level len(levels)+1 and appends.
Returns (exists, found section, updated tree). -/
def addLevels (t : PTree) (secIdx : Nat) : Bool × Option Nat × PTree :=
  match findByRune t (heapGet t secIdx).underRune with
  | some f =>
    if (heapGet t f).text = (heapGet t secIdx).text then (true, some f, t)
    else
      let t1 := heapSet t secIdx
        { heapGet t secIdx with level := (heapGet t f).level }
      (false, some f, { t1 with levels := t1.levels ++ [secIdx] })
  | none =>
    let t1 := heapSet t secIdx
      { heapGet t secIdx with level := t.levels.length + 1 }
    (false, none, { t1 with levels := t1.levels ++ [secIdx] })

/-! ## Tree building -/

/-- Append a node to the current insertion target (Tree.nodeTarget):
the root list, or the child list of the targeted container node. -/
def appendNode (t : PTree) (idx : Nat) : PTree :=
  match t.target with
  | none => { t with root := t.root ++ [idx] }
  | some p =>
    let hp := heapGet t p
    heapSet t p { hp with children := hp.children ++ [idx] }

/-- After appending, Sections and BlockQuotes become the new insertion
target (the reflection-based NodeList retargeting in Tree.parse). -/
def retargetIfContainer (t : PTree) (idx : Nat) : PTree :=
  match (heapGet t idx).kind with
  | .section => { t with target := some idx }
  | .blockQuote => { t with target := some idx }
  | _ => t

/-- Tree.systemMessage(err): build the SystemMessage node, its
explanation Paragraph (a bare item carrying only Text and Length, the
other fields Go zero values) and the offending-text LiteralBlock; the
two "unexpected title" kinds join the back token's text with the
current token's text by a newline and add one to the length. -/
def systemMessageFn (t : PTree) (err : ParserMessage) : Except PFail (Nat × PTree) :=
  match wget t.window tokenZero with
  | none => .error .fault
  | some curTok =>
    let (sIdx, t) := allocSystemMessage t curTok.line err.LevelOf
    let msgText := err.MessageStr
    let (mIdx, t) := allocParagraph t ⟨.eofTok, 0, 0, msgText.length, msgText⟩
    match err with
    | .errorUnexpectedSectionTitleOrTransition =>
      let lbText := curTok.text
      let (lbIdx, t) := allocLiteralBlock t lbText lbText.length
      let s := heapGet t sIdx
      .ok (sIdx, heapSet t sIdx { s with children := s.children ++ [mIdx, lbIdx] })
    | _ =>
      match peekBackT t 1 with
      | none => .error .fault
      | some pb =>
        let backToken := if pb.typ = ItemType.space then tokenZero - 2 else tokenZero - 1
        match wget t.window backToken with
        | none => .error .fault
        | some bt =>
          let lbText := bt.text ++ '\n' :: curTok.text
          let lbLen := lbText.length + 1
          let (lbIdx, t) := allocLiteralBlock t lbText lbLen
          let s := heapGet t sIdx
          .ok (sIdx, heapSet t sIdx { s with children := s.children ++ [mIdx, lbIdx] })

/-- Continuation of Tree.section after the space-lookback branches:
overline validation, newSection, registry Add, sibling retargeting and
the short-underline system message. -/
def sectionBuild (t : PTree) (i : Item) (overline : Bool) : Except PFail (Nat × PTree) :=
  let title? := peekBackT t 1
  if i.typ = ItemType.space then
    match backupT t with
    | .error e => .error e
    | .ok (_, t1) => systemMessageFn t1 .errorUnexpectedSectionTitle
  else
    match title? with
    | none => .error .fault
    | some title =>
      let t :=
        if overline ∧ title.length ≠ title.length then
          { t with errs := t.errs ++ [.overlineLengthMismatch] }
        else if overline ∧ title.text ≠ i.text then
          { t with errs := t.errs ++ [.overlineTextMismatch] }
        else t
      match i.text with
      | [] => .error .fault
      | u0 :: _ =>
        if overline ∧ title.text = [] then .error .fault
        else
          let (secIdx, t) := allocSection t title overline i ((u0.toNat : Int))
          let (ex, eSec, t) := addLevels t secIdx
          let afterLevels : Except PFail PTree :=
            if ex ∧ eSec.isSome then
              .ok { t with errs := t.errs ++ [.duplicateSection] }
            else if (¬ ex) ∧ eSec.isSome then
              let lvl := (heapGet t secIdx).level
              if lvl < 2 then .error .fault
              else
                match t.levels.get? (lvl - 2) with
                | none => .error .fault
                | some tgt => .ok { t with target := some tgt }
            else .ok t
          match afterLevels with
          | .error e => .error e
          | .ok t =>
            if title.length ≠ i.length then
              match systemMessageFn t .warningShortUnderline with
              | .error e => .error e
              | .ok (msgIdx, t) =>
                let sec := heapGet t secIdx
                .ok (secIdx,
                     heapSet t secIdx { sec with children := sec.children ++ [msgIdx] })
            else .ok (secIdx, t)

/-- Tree.section(i): the space-lookback error branches, overline
detection (overAdorn is aliased to the title item by the source), then
sectionBuild. -/
def sectionFn (t : PTree) (i : Item) : Except PFail (Nat × PTree) :=
  match peekBackT t 1 with
  | some pb =>
    if pb.typ = ItemType.space then
      match peekBackT t 2 with
      | none => .error .fault
      | some pb2 =>
        if pb2.typ = ItemType.title then
          systemMessageFn t .errorUnexpectedSectionTitle
        else
          systemMessageFn t .errorUnexpectedSectionTitleOrTransition
    else
      let overline : Bool :=
        if pb.typ = ItemType.title then
          match peekBackT t 2 with
          | some pb2 => decide (pb2.typ = ItemType.sectionAdornment)
          | none => false
        else false
      sectionBuild t i overline
  | none => sectionBuild t i false

/-- Tree.indent(i): a Space token right after a BlankLine opens or
continues a block quote at level length / indentWidth. -/
def indentFn (t : PTree) (i : Item) : Except PFail (Option Nat × PTree) :=
  let level := i.length / t.indentWidth
  match peekBackT t 1 with
  | none => .error .fault
  | some pb =>
    if pb.typ = ItemType.blankLine then
      if t.indentLevel = level then .ok (none, t)
      else
        let t1 := { t with indentLevel := level }
        let (idx, t2) := allocBlockQuote t1 level i.line
        .ok (some idx, t2)
    else .ok (none, t)

/-- Main loop of Tree.parse: peek, stop on EOF, next, dispatch on the
token kind, append the produced node to the insertion target and
descend into produced containers. -/
def parseIter : Nat → PTree → Except PFail PTree
  | 0, _ => .error .fuelOut
  | fuel + 1, t =>
    match peekT 1 t with
    | .error e => .error e
    | .ok (pk, t) =>
      match pk with
      | none => .error .fault
      | some pkIt =>
        if pkIt.typ = ItemType.eofTok then .ok t
        else
          match nextT t with
          | .error e => .error e
          | .ok (tok?, t) =>
            match tok? with
            | none => .error .fault
            | some tok =>
              match tok.typ with
              | .sectionAdornment =>
                match sectionFn t tok with
                | .error e => .error e
                | .ok (idx, t) =>
                  parseIter fuel (retargetIfContainer (appendNode t idx) idx)
              | .paragraph =>
                let (idx, t1) := allocParagraph t tok
                parseIter fuel (retargetIfContainer (appendNode t1 idx) idx)
              | .space =>
                match indentFn t tok with
                | .error e => .error e
                | .ok (none, t) => parseIter fuel t
                | .ok (some idx, t) =>
                  parseIter fuel (retargetIfContainer (appendNode t idx) idx)
              | .title => parseIter fuel t
              | .blankLine => parseIter fuel t
              | .eofTok => .ok t
              | k => parseIter fuel { t with errs := t.errs ++ [.notImplemented k] }

/-! ## Parse entry point (Parse in the parser source) -/

/-- Interface of the external normalization collaborator
(code.google.com/p/go.text/unicode/norm, form NFC), abstracted as the
two functions Parse calls. -/
structure GoNormalizer where
  IsNormalString : String → Bool
  NFCString : String → String

/-- The text Parse actually lexes and stores in the Tree: normalized
to NFC first whenever IsNormalString rejects the caller's argument
(lines 127-130 of the parser source). -/
def parseInputText (n : GoNormalizer) (text : String) : String :=
  if n.IsNormalString text then text else n.NFCString text

/-- Scan for the decomposed pair e + combining acute (U+0301). -/
def nfcPairScan : List Char → Bool
  | [] => false
  | [_] => false
  | a :: b :: rest =>
    if a = 'e' ∧ b = '́' then true else nfcPairScan (b :: rest)

/-- Canonically compose every e + U+0301 pair to é (U+00E9). -/
def nfcCompose : List Char → List Char
  | [] => []
  | [a] => [a]
  | a :: b :: rest =>
    if a = 'e' ∧ b = '́' then 'é' :: nfcCompose rest
    else a :: nfcCompose (b :: rest)

/-- Model of the external library norm.NFC, restricted to the single
canonical composition e + U+0301 = é: a string is NFC-normal iff it
contains no such decomposed pair, and normalization composes the pairs.
This matches Unicode NFC (and hence the Go library) on every string
whose only combining sequences are such pairs; ASCII strings contain
none and pass through unchanged. -/
def nfcModel : GoNormalizer :=
  ⟨fun s => ! nfcPairScan s.toList, fun s => ⟨nfcCompose s.toList⟩⟩

/-- Resolved tree node for inspecting results: the heap references
materialized, keeping the fields the claims talk about. -/
inductive RNode where
  | section (text : List Char) (level : Nat) (length : Nat)
      (underRune : Int) (underLength : Nat) (children : List RNode)
  | paragraph (text : List Char) (length : Nat)
  | blockQuote (level : Nat) (children : List RNode)
  | systemMessage (severity : SMLevel) (children : List RNode)
  | literalBlock (text : List Char) (length : Nat)
  deriving Repr

/-- Materialize a heap node (fuel bounds the child depth; child indices
produced by the parser always exceed their parent's, so heap length
suffices). -/
def resolveNode : Nat → List HNode → Nat → Option RNode
  | 0, _, _ => none
  | fuel + 1, heap, idx =>
    match heap.get? idx with
    | none => none
    | some h =>
      match h.kind with
      | .section =>
        (h.children.mapM (resolveNode fuel heap)).map
          (RNode.section h.text h.level h.length h.underRune h.underLength)
      | .paragraph => some (.paragraph h.text h.length)
      | .blockQuote =>
        (h.children.mapM (resolveNode fuel heap)).map (RNode.blockQuote h.level)
      | .systemMessage =>
        (h.children.mapM (resolveNode fuel heap)).map (RNode.systemMessage h.severity)
      | .literalBlock => some (.literalBlock h.text h.length)

/-- Materialize the root node list of a parse. -/
def resolveRoot (t : PTree) : Option (List RNode) :=
  t.root.mapM (resolveNode (t.heap.length + 1) t.heap)

/-- Fresh parser state over a lexed item stream (New + startParse). -/
def initPTree (items : List Item) : PTree :=
  { window := {}, tokenPeekCount := 0, tokenBackupCount := 0,
    stream := items, heap := [], root := [], target := none,
    levels := [], errs := [], id := 0, indentWidth := 4, indentLevel := 0 }

/-- Parse(name, text): normalize, lex, run the parser loop.  Returns
the stored text (the Tree's text field) and, when lexing and parsing
complete, the resolved root list with the error list; none when the
lexer diverges or faults, or the parser fails. -/
def ParseGo (n : GoNormalizer) (lexFuel : Nat) (text : String) :
    String × Option (List RNode × List PErr) :=
  let stored := parseInputText n text
  match lexSteps lexFuel (lexInit stored.toList) with
  | .finished items =>
    match parseIter (items.length + 1) (initPTree items) with
    | .ok t =>
      match resolveRoot t with
      | some nodes => (stored, some (nodes, t.errs))
      | none => (stored, none)
    | .error _ => (stored, none)
  | _ => (stored, none)

/-- Parse with the NFC model, yielding only the parse outcome. -/
def parseRST (lexFuel : Nat) (text : String) : Option (List RNode × List PErr) :=
  (ParseGo nfcModel lexFuel text).2

/-- A parse returns none whenever its lexer run cannot finish. -/
theorem parseRST_not_finished {fuel : Nat} {s : String}
    (h : ∀ items, lexSteps fuel (lexInit ((parseInputText nfcModel s).toList)) ≠
        .finished items) :
    parseRST fuel s = none := by
  unfold parseRST ParseGo
  rcases hh : lexSteps fuel (lexInit ((parseInputText nfcModel s).toList)) with a | items | _
  · simp only [String.toList] at hh
    simp [hh]
  · exact absurd hh (h items)
  · simp only [String.toList] at hh
    simp [hh]

/-- The lexer on c2Input can never reach the finished state. -/
theorem c2_no_finish (fuel : Nat) (items : List Item) :
    lexSteps fuel (lexInit c2Input) ≠ .finished items := by
  intro h
  have h1 := lexSteps_finished_absorb h 6
  have h2 : lexSteps (6 + fuel) (lexInit c2Input) = .running c2Stuck := by
    rw [lexSteps_add, c2_reaches_stuck]
    exact c2Stuck_runs fuel
  rw [Nat.add_comm] at h1
  rw [h1] at h2
  exact LexRes.noConfusion h2

/-- The lexer on c2Input can never fault either. -/
theorem c2_no_fault (fuel : Nat) :
    lexSteps fuel (lexInit c2Input) ≠ .fault := by
  intro h
  have h1 := lexSteps_fault_absorb h 6
  have h2 : lexSteps (6 + fuel) (lexInit c2Input) = .running c2Stuck := by
    rw [lexSteps_add, c2_reaches_stuck]
    exact c2Stuck_runs fuel
  rw [Nat.add_comm] at h1
  rw [h1] at h2
  exact LexRes.noConfusion h2

/-- C2: the claim that parse terminates for every input fails on the
input "AB\n==": the lexer never reaches the EOF terminal state (the
machine is still running after any number of steps -- lexTitle waits
for a newline that cannot arrive once the cursor is at end of input),
and consequently parse never returns for any fuel bound. -/
theorem C2_lexer_diverges_without_trailing_newline :
    (∀ fuel : Nat, ∃ s, lexSteps fuel (lexInit c2Input) = .running s) ∧
    (∀ fuel : Nat, parseRST fuel "AB\n==" = none) := by
  constructor
  · intro fuel
    rcases h : lexSteps fuel (lexInit c2Input) with s | items | _
    · exact ⟨s, rfl⟩
    · exact absurd h (c2_no_finish fuel items)
    · exact absurd h (c2_no_fault fuel)
  · intro fuel
    apply parseRST_not_finished
    intro items hfin
    exact c2_no_finish fuel items hfin

/-- C3: parsing "Title\n=====\n" yields exactly one root node, a
Section of level 1 with text "Title", underline rune '=' (61) and
underline length 5, and an empty error list. -/
theorem C3_simple_section :
    parseRST 100 "Title\n=====\n" =
      some ([RNode.section "Title".toList 1 5 61 5 []], []) := by
  rfl

/-- C4 (evaluation at the failing input): parsing "A\n=\n\nB\n=\n"
yields an empty root list and no errors -- no Section node at all,
because lexStart emits each single-character line as a BlankLine token
(carrying the non-blank text), which the parser absorbs without
producing nodes; the claimed two level-1 sibling Sections never exist. -/
theorem C4_single_char_sections_produce_nothing :
    parseRST 100 "A\n=\n\nB\n=\n" = some ([], []) := by
  rfl

/-- C6 (evaluation at the failing input): on "=====\n" the lexer
panics after three steps -- lexStart's lookahead sends it into
lexSection before any item was emitted, and lexSection dereferences the
nil lastItem -- so parse never produces the claimed severe
SystemMessage (or anything else) for any fuel bound. -/
theorem C6_bare_adornment_panics :
    (∀ d : Nat, lexSteps (3 + d) (lexInit c6Input) = .fault) ∧
    (∀ fuel : Nat, parseRST fuel "=====\n" = none) := by
  constructor
  · intro d
    exact lexSteps_fault_absorb c6_fault_at_3 d
  · intro fuel
    apply parseRST_not_finished
    intro items hfin
    have hfin' : lexSteps fuel (lexInit c6Input) = .finished items := hfin
    have h1 := lexSteps_finished_absorb hfin' 3
    have h2 := lexSteps_fault_absorb c6_fault_at_3 fuel
    rw [Nat.add_comm] at h2
    rw [h1] at h2
    exact LexRes.noConfusion h2

/-! ## C9: token positions -/

/-- Taking a prefix of the length of an already-taken prefix is that
prefix again. -/
theorem take_take_length {α : Type} (l : List α) (n : Nat) :
    l.take ((l.take n).length) = l.take n := by
  rw [List.length_take]
  rcases Nat.le_total n l.length with h | h
  · rw [Nat.min_eq_left h]
  · rw [Nat.min_eq_right h, List.take_length]
    exact (List.take_of_length_le h).symm

/-- C9 counterexample: the claim that a token's position is its 1-based
column within its own line, and its line counts the newlines consumed
before the token, is false.  In "Title\n=====\n" the adornment token
(index 1) starts line 2 at column 1 but carries Position 7 (a 1-based
offset into the whole input); in "a \n b" the Space token (index 0)
starts at offset 0 with no newline before it, yet carries Line 2
(the token itself spans a newline and emit counts to the end cursor). -/
theorem C9_counterexample :
    ((lexItemsOf 100 "Title\n=====\n").get? 1).map Item.position = some 7
    ∧ specColumnWithinLine ("Title\n=====\n".toList) 6 = 1
    ∧ (7 : Nat) ≠ 1
    ∧ ((lexItemsOf 100 "a \n b").get? 0).map Item.line = some 2
    ∧ specLineOfStart ("a \n b".toList) 0 = 1
    ∧ (2 : Nat) ≠ 1 := by
  decide

/-- C9 amended: an emitted token's Position is 1 plus the token's start
offset into the whole input -- dropping Position - 1 characters of the
input and taking Length characters reproduces the token's text exactly
-- and its Line is 1 plus the number of newlines strictly before the
emission-time cursor position minus one (the cursor having consumed the
whole token), not the count before the token's start. -/
theorem C9_amended_positions (c : Core) (k : ItemType) :
    (c.input.drop ((emitItem k c).1.position - 1)).take (emitItem k c).1.length
        = (emitItem k c).1.text
    ∧ (emitItem k c).1.line = 1 + countNL (c.input.take ((emitItem k c).2.pos - 1)) := by
  unfold emitItem lineNumber
  by_cases h : c.start = c.pos ∧ c.pos < c.input.length
  · simp only [if_pos h]
    exact ⟨take_take_length _ _, by trivial⟩
  · simp only [if_neg h]
    exact ⟨take_take_length _ _, by trivial⟩

/-! ## C8: Parse normalizes its input -/

/-- The Tree's stored (and lexed) text is always the normalized text. -/
theorem ParseGo_fst (n : GoNormalizer) (fuel : Nat) (text : String) :
    (ParseGo n fuel text).1 = parseInputText n text := by
  unfold ParseGo
  rcases h : lexSteps fuel (lexInit ((parseInputText n text).toList)) with a | items | _ <;>
    simp only [String.toList] at h
  · simp [h]
  · rcases hp : parseIter (items.length + 1) (initPTree items) with e | t
    · simp [h, hp]
    · rcases hr : resolveRoot t with _ | nodes
      · simp [h, hp, hr]
      · simp [h, hp, hr]
  · simp [h]

/-- C8 counterexample: Parse does normalize.  For the decomposed input
"e" + U+0301 the stored and lexed text is the composed "é", not the
caller's argument. -/
theorem C8_counterexample :
    parseInputText nfcModel "é" ≠ "é"
    ∧ (ParseGo nfcModel 100 "é").1 ≠ "é" := by
  constructor
  · decide
  · rw [ParseGo_fst]
    decide

/-- C8 amended: the text Parse lexes and stores is the NFC-normalized
input -- exactly the caller's argument whenever that argument is
already in normal form, and the composed form otherwise. -/
theorem C8_amended_stores_normalized (n : GoNormalizer) (fuel : Nat) (text : String) :
    (ParseGo n fuel text).1 = parseInputText n text
    ∧ (n.IsNormalString text = true → (ParseGo n fuel text).1 = text) := by
  refine ⟨ParseGo_fst n fuel text, fun hn => ?_⟩
  rw [ParseGo_fst]
  simp [parseInputText, hn]

/-- Witness for the amended C8 at a concrete already-normal input. -/
theorem C8_amended_witness :
    nfcModel.IsNormalString "abc" = true ∧ (ParseGo nfcModel 5 "abc").1 = "abc" :=
  ⟨by decide, (C8_amended_stores_normalized nfcModel 5 "abc").2 (by decide)⟩

/-! ## C1: section level assignment by the registry -/

/-- A title item as the parser sees it when Tree.section runs. -/
def mkTitleItem (txt : List Char) : Item :=
  ⟨.title, 1, 1, txt.length, txt⟩

/-- An underline adornment item made of len copies of r. -/
def mkAdornItem (r : Char) (len : Nat) : Item :=
  ⟨.sectionAdornment, 1, 2, len, List.replicate len r⟩

/-- Drive the registry exactly as Tree.section does per section:
allocate the SectionNode, then sectionLevels.Add it. -/
def addSeq : List (Char × List Char) → PTree → PTree
  | [], t => t
  | (r, txt) :: rest, t =>
    let (idx, t1) :=
      allocSection t (mkTitleItem txt) false (mkAdornItem r txt.length)
        ((r.toNat : Int))
    let (_, _, t2) := addLevels t1 idx
    addSeq rest t2

/-- Registry state after a sequence of sections, from a fresh tree. -/
def addSequence (l : List (Char × List Char)) : PTree :=
  addSeq l (initPTree [])

/-- Definition following the claim's words (for comparison with the
code, not taken from the source): the level the claim assigns to a
newly seen rune, one more than the count of distinct runes seen so far. -/
def specNewRuneLevel (prevRunes : List Int) : Nat :=
  prevRunes.dedup.length + 1

/-- C1 counterexample: level assignment is not distinct-rune counting,
and reuse does not always return the original level.  After adding
('=', "A"), ('=', "B") -- one distinct rune, two registry entries --
a section with the new rune '-' receives level 3 where the claim
demands previous distinct rune count + 1 = 2.  And re-adding the same
rune with the same title "A" leaves the new section's level at 0,
not the originally assigned level 1. -/
theorem C1_counterexample :
    (heapGet (addSequence [('=', "A".toList), ('=', "B".toList), ('-', "C".toList)]) 2).level = 3
    ∧ specNewRuneLevel [61, 61] = 2
    ∧ (3 : Nat) ≠ 2
    ∧ (heapGet (addSequence [('=', "A".toList), ('=', "A".toList)]) 1).level = 0
    ∧ (heapGet (addSequence [('=', "A".toList), ('=', "A".toList)]) 0).level = 1
    ∧ (0 : Nat) ≠ 1 := by
  decide

/-- Reading back a heap cell just written. -/
theorem heapGet_heapSet_self (t : PTree) (i : Nat) (hlt : i < t.heap.length)
    (v : HNode) : heapGet (heapSet t i v) i = v := by
  unfold heapGet heapSet
  simp only []
  rw [List.get?_set_eq_of_lt v hlt]
  rfl

/-- A heap write leaves every other cell unchanged. -/
theorem heapGet_heapSet_ne (t : PTree) (i j : Nat) (h : j ≠ i) (v : HNode) :
    heapGet (heapSet t i v) j = heapGet t j := by
  unfold heapGet heapSet
  simp only []
  rw [List.get?_set_ne v t.heap (Ne.symm h)]

/-- C1 amended: sectionLevels.Add assigns a newly seen rune the level
(current registry length) + 1, where the registry also records reuses
of a seen rune under a different title; such a different-title reuse
receives the level of the first registry entry with that rune
(FindByRune returns the first match); a same-rune same-title reuse
reports exists, leaves the registry and the new section (level 0 from
construction) untouched; and no existing node is ever modified. -/
theorem C1_amended_level_assignment (t : PTree) (secIdx : Nat)
    (hlt : secIdx < t.heap.length) :
    (findByRune t (heapGet t secIdx).underRune = none →
       (heapGet (addLevels t secIdx).2.2 secIdx).level = t.levels.length + 1
       ∧ (addLevels t secIdx).2.2.levels = t.levels ++ [secIdx])
    ∧ (∀ f, findByRune t (heapGet t secIdx).underRune = some f →
        (heapGet t f).text ≠ (heapGet t secIdx).text →
        (heapGet (addLevels t secIdx).2.2 secIdx).level = (heapGet t f).level
        ∧ (addLevels t secIdx).2.2.levels = t.levels ++ [secIdx])
    ∧ (∀ f, findByRune t (heapGet t secIdx).underRune = some f →
        (heapGet t f).text = (heapGet t secIdx).text →
        addLevels t secIdx = (true, some f, t))
    ∧ (∀ j, j ≠ secIdx → heapGet (addLevels t secIdx).2.2 j = heapGet t j) := by
  refine ⟨fun hf => ?_, fun f hf htxt => ?_, fun f hf htxt => ?_, fun j hj => ?_⟩
  · unfold addLevels
    simp only [hf]
    refine ⟨?_, rfl⟩
    show (heapGet (heapSet t secIdx
        { heapGet t secIdx with level := t.levels.length + 1 }) secIdx).level =
      t.levels.length + 1
    rw [heapGet_heapSet_self t secIdx hlt]
  · unfold addLevels
    simp only [hf, if_neg htxt]
    refine ⟨?_, rfl⟩
    show (heapGet (heapSet t secIdx
        { heapGet t secIdx with level := (heapGet t f).level }) secIdx).level =
      (heapGet t f).level
    rw [heapGet_heapSet_self t secIdx hlt]
  · unfold addLevels
    simp only [hf, if_pos htxt]
  · unfold addLevels
    rcases hf : findByRune t (heapGet t secIdx).underRune with _ | f
    · simp only [hf]
      exact heapGet_heapSet_ne t secIdx j hj _
    · by_cases htxt : (heapGet t f).text = (heapGet t secIdx).text
      · simp only [hf, if_pos htxt]
      · simp only [hf, if_neg htxt]
        exact heapGet_heapSet_ne t secIdx j hj _

/-- A registry with one '=' section recorded plus a freshly allocated
'-' section (heap index 1) not yet added. -/
def c1WitnessTree : PTree :=
  (allocSection (addSequence [('=', "A".toList)]) (mkTitleItem "C".toList) false
    (mkAdornItem '-' 1) 45).2

/-- Witness for the amended C1: adding the fresh '-' section to the
one-entry registry assigns it level 2 and appends it. -/
theorem C1_amended_witness :
    (heapGet (addLevels c1WitnessTree 1).2.2 1).level = 2
    ∧ (addLevels c1WitnessTree 1).2.2.levels = [0, 1] := by
  have h := (C1_amended_level_assignment c1WitnessTree 1 (by decide)).1 (by decide)
  refine ⟨?_, ?_⟩
  · rw [h.1]
    decide
  · rw [h.2]
    decide

/-! ## Heap bookkeeping lemmas for the C5 development -/

/-- Allocation leaves existing heap cells unchanged. -/
theorem heapGet_allocNode_lt (t : PTree) (v : HNode) {j : Nat}
    (h : j < t.heap.length) : heapGet (allocNode t v).2 j = heapGet t j := by
  unfold heapGet allocNode
  simp only []
  rw [List.get?_append h]

/-- Reading back the freshly allocated cell. -/
theorem heapGet_allocNode_self (t : PTree) (v : HNode) :
    heapGet (allocNode t v).2 t.heap.length = { v with id := t.id } := by
  unfold heapGet allocNode
  simp only []
  rw [List.get?_concat_length]
  rfl

/-- addLevels does not touch the token window. -/
theorem addLevels_window (t : PTree) (s : Nat) :
    (addLevels t s).2.2.window = t.window := by
  unfold addLevels
  split
  · split
    · rfl
    · rfl
  · rfl

/-- addLevels does not shrink or grow the heap. -/
theorem addLevels_heap_length (t : PTree) (s : Nat) :
    (addLevels t s).2.2.heap.length = t.heap.length := by
  unfold addLevels
  split
  · split
    · rfl
    · simp [heapSet]
  · simp [heapSet]

/-- addLevels at most rewrites the new section's level field. -/
theorem addLevels_heapGet_self (t : PTree) (s : Nat) (hlt : s < t.heap.length) :
    ∃ lvl, heapGet (addLevels t s).2.2 s = { heapGet t s with level := lvl } := by
  unfold addLevels
  rcases hf : findByRune t (heapGet t s).underRune with _ | f
  · refine ⟨t.levels.length + 1, ?_⟩
    show heapGet (heapSet t s { heapGet t s with level := t.levels.length + 1 }) s = _
    rw [heapGet_heapSet_self t s hlt]
  · by_cases htxt : (heapGet t f).text = (heapGet t s).text
    · refine ⟨(heapGet t s).level, ?_⟩
      simp only [if_pos htxt]
    · refine ⟨(heapGet t f).level, ?_⟩
      simp only [if_neg htxt]
      show heapGet (heapSet t s { heapGet t s with level := (heapGet t f).level }) s = _
      rw [heapGet_heapSet_self t s hlt]

/-- What Tree.systemMessage(warningShortUnderline) produces when the
current token and the one-back token are present and the latter is not
a Space: a fresh SystemMessage node of severity warning at the old heap
length, whose first child is the Paragraph with the fixed explanation
text, with all pre-existing nodes untouched. -/
theorem systemMessageFn_warning (t : PTree) (cur pb : Item)
    (h3 : wget t.window 3 = some cur)
    (h2 : wget t.window 2 = some pb)
    (hpb : pb.typ ≠ ItemType.space) :
    ∃ t'', systemMessageFn t .warningShortUnderline = .ok (t.heap.length, t'')
      ∧ t''.heap.length = t.heap.length + 3
      ∧ (heapGet t'' t.heap.length).kind = NKind.systemMessage
      ∧ (heapGet t'' t.heap.length).severity = SMLevel.levelWarning
      ∧ ((heapGet t'' t.heap.length).children = [t.heap.length + 1, t.heap.length + 2]
          ∧ (heapGet t'' (t.heap.length + 1)).kind = NKind.paragraph
          ∧ (heapGet t'' (t.heap.length + 1)).text = "Title underline too short.".toList)
      ∧ (∀ j, j < t.heap.length → heapGet t'' j = heapGet t j) := by
  have h3' : wget t.window tokenZero = some cur := h3
  have h2' : peekBackT t 1 = some pb := h2
  have h2'' : wget t.window (tokenZero - 1) = some pb := h2
  unfold systemMessageFn
  rw [h3']
  dsimp only [allocSystemMessage, allocParagraph, allocLiteralBlock, allocNode,
    ParserMessage.LevelOf, ParserMessage.MessageStr, peekBackT]
  rw [h2'']
  dsimp only []
  rw [if_neg hpb]
  rw [h2'']
  dsimp only [heapGet, heapSet]
  refine ⟨_, rfl, ?_, ?_, ?_, ?_, ?_⟩
  · simp [List.length_set, List.length_append]
  · rw [List.get?_set_eq_of_lt _
      (by simp only [List.length_append, List.length_singleton, List.length_cons,
        List.length_nil]; omega)]
    simp [List.get?_append, List.get?_concat_length, List.getElem_append_right]
  · rw [List.get?_set_eq_of_lt _
      (by simp only [List.length_append, List.length_singleton, List.length_cons,
        List.length_nil]; omega)]
    simp [List.get?_append, List.get?_concat_length, List.getElem_append_right]
  · refine ⟨?_, ?_, ?_⟩
    · rw [List.get?_set_eq_of_lt _
        (by simp only [List.length_append, List.length_singleton, List.length_cons,
          List.length_nil]; omega)]
      simp [List.get?_append, List.get?_concat_length, List.getElem_append_right,
        List.length_append]
    · rw [List.get?_set_ne _ _ (by omega)]
      simp [List.get?_append, List.get?_concat_length, List.getElem_append_right,
        List.length_append]
    · rw [List.get?_set_ne _ _ (by omega)]
      simp [List.get?_append, List.get?_concat_length, List.getElem_append_right,
        List.length_append]
  · intro j hj
    rw [List.get?_set_ne _ _ (by omega)]
    have hj1 : j < t.heap.length + 1 := by omega
    have hj2 : j < t.heap.length + 2 := by omega
    simp [List.get?_append, List.getElem?_append, List.length_append, hj, hj1, hj2]

/-- Final step shared by every successful path of sectionBuild when the
underline is short: the warning SystemMessage becomes the Section's
single child. -/
theorem buildFinish (tw : PTree) (pb cur : Item) (secIdx idx : Nat) (t' : PTree)
    (hw2 : wget tw.window 2 = some pb)
    (hw3 : wget tw.window 3 = some cur)
    (hpb_ne : pb.typ ≠ ItemType.space)
    (hslt : secIdx < tw.heap.length)
    (hsk : (heapGet tw secIdx).kind = NKind.section)
    (hst : (heapGet tw secIdx).text = pb.text)
    (hsc : (heapGet tw secIdx).children = [])
    (hok : (match systemMessageFn tw ParserMessage.warningShortUnderline with
            | Except.error e => Except.error e
            | Except.ok (msgIdx, t6) =>
                Except.ok (secIdx, heapSet t6 secIdx
                  { heapGet t6 secIdx with
                    children := (heapGet t6 secIdx).children ++ [msgIdx] }))
          = Except.ok (idx, t')) :
    (heapGet t' idx).kind = NKind.section
    ∧ (heapGet t' idx).text = pb.text
    ∧ ∃ m, (heapGet t' idx).children = [m]
        ∧ (heapGet t' m).kind = NKind.systemMessage
        ∧ (heapGet t' m).severity = SMLevel.levelWarning
        ∧ ∃ p q, (heapGet t' m).children = [p, q]
            ∧ (heapGet t' p).kind = NKind.paragraph
            ∧ (heapGet t' p).text = "Title underline too short.".toList := by
  obtain ⟨t6, heq6, hlen6, hkind, hsev, ⟨hch, hpk, hpt⟩, hpres⟩ :=
    systemMessageFn_warning tw cur pb hw3 hw2 hpb_ne
  rw [heq6] at hok
  dsimp only [] at hok
  cases hok
  have hlt6 : secIdx < t6.heap.length := by omega
  have h6sec : heapGet t6 secIdx = heapGet tw secIdx := hpres secIdx hslt
  refine ⟨?_, ?_, tw.heap.length, ?_, ?_, ?_,
    tw.heap.length + 1, tw.heap.length + 2, ?_, ?_, ?_⟩
  · rw [heapGet_heapSet_self t6 secIdx hlt6]
    dsimp only []
    rw [h6sec]
    exact hsk
  · rw [heapGet_heapSet_self t6 secIdx hlt6]
    dsimp only []
    rw [h6sec]
    exact hst
  · rw [heapGet_heapSet_self t6 secIdx hlt6]
    dsimp only []
    rw [h6sec, hsc]
    rfl
  · rw [heapGet_heapSet_ne t6 secIdx tw.heap.length (by omega) _]
    exact hkind
  · rw [heapGet_heapSet_ne t6 secIdx tw.heap.length (by omega) _]
    exact hsev
  · rw [heapGet_heapSet_ne t6 secIdx tw.heap.length (by omega) _]
    exact hch
  · rw [heapGet_heapSet_ne t6 secIdx (tw.heap.length + 1) (by omega) _]
    exact hpk
  · rw [heapGet_heapSet_ne t6 secIdx (tw.heap.length + 1) (by omega) _]
    exact hpt

/-- Core of C5 at the level of sectionBuild: whatever the overline
flag and the registry state, a successfully built Section whose title
and underline lengths differ has exactly the short-underline warning
SystemMessage as its first (and only) child at build time. -/
theorem sectionBuild_short (t : PTree) (i pb cur : Item) (ob : Bool)
    (h2 : wget t.window 2 = some pb) (hpb : pb.typ = ItemType.title)
    (h3 : wget t.window 3 = some cur)
    (hi : i.typ = ItemType.sectionAdornment)
    (hlen : pb.length ≠ i.length)
    (idx : Nat) (t' : PTree)
    (hok : sectionBuild t i ob = .ok (idx, t')) :
    (heapGet t' idx).kind = NKind.section
    ∧ (heapGet t' idx).text = pb.text
    ∧ ∃ m, (heapGet t' idx).children = [m]
        ∧ (heapGet t' m).kind = NKind.systemMessage
        ∧ (heapGet t' m).severity = SMLevel.levelWarning
        ∧ ∃ p q, (heapGet t' m).children = [p, q]
            ∧ (heapGet t' p).kind = NKind.paragraph
            ∧ (heapGet t' p).text = "Title underline too short.".toList := by
  have hpb_ne : pb.typ ≠ ItemType.space := by rw [hpb]; decide
  unfold sectionBuild at hok
  rw [show peekBackT t 1 = some pb from h2] at hok
  rw [if_neg (show ¬(i.typ = ItemType.space) by rw [hi]; decide)] at hok
  dsimp only [] at hok
  rw [if_neg (show ¬((ob : Prop) ∧ pb.length ≠ pb.length) by simp)] at hok
  rcases hit : i.text with _ | ⟨u0, urest⟩
  · rw [hit] at hok
    dsimp only [] at hok
    exact Except.noConfusion hok
  · rw [hit] at hok
    dsimp only [] at hok
    by_cases hemp : ob = true ∧ pb.text = ([] : List Char)
    · rw [if_pos hemp] at hok
      exact Except.noConfusion hok
    · rw [if_neg hemp] at hok
      set te : PTree :=
        (if ob = true ∧ pb.text ≠ u0 :: urest then
          { t with errs := t.errs ++ [PErr.overlineTextMismatch] }
        else t) with hte
      set sec0 := allocSection te pb ob i (u0.toNat : Int) with hsec0
      set trip := addLevels sec0.2 sec0.1 with htrip
      have hsec0_idx : sec0.1 = te.heap.length := by
        rw [hsec0]
        rfl
      have hlen0 : sec0.2.heap.length = te.heap.length + 1 := by
        rw [hsec0]
        dsimp only [allocSection, allocNode]
        simp
      have hget0 : heapGet sec0.2 sec0.1 =
          { kind := NKind.section, id := te.id, line := pb.line,
            startPos := pb.position, text := pb.text, length := pb.length,
            level := 0, severity := SMLevel.levelInfo,
            underRune := (u0.toNat : Int), underLength := i.length,
            overline := ob, children := [] } := by
        rw [hsec0]
        exact heapGet_allocNode_self te _
      have hte_win : te.window = t.window := by
        rw [hte]
        split <;> rfl
      have htrip_win : trip.2.2.window = t.window := by
        rw [htrip, addLevels_window]
        rw [hsec0]
        exact hte_win
      have htrip_len : trip.2.2.heap.length = te.heap.length + 1 := by
        rw [htrip, addLevels_heap_length]
        exact hlen0
      obtain ⟨lvl, hL⟩ :
          ∃ lvl, heapGet trip.2.2 sec0.1 =
            { kind := NKind.section, id := te.id, line := pb.line,
              startPos := pb.position, text := pb.text, length := pb.length,
              level := lvl, severity := SMLevel.levelInfo,
              underRune := (u0.toNat : Int), underLength := i.length,
              overline := ob, children := [] } := by
        obtain ⟨lvl, h⟩ := addLevels_heapGet_self sec0.2 sec0.1 (by omega)
        rw [hget0] at h
        rw [← htrip] at h
        exact ⟨lvl, h⟩
      have hk : (heapGet trip.2.2 sec0.1).kind = NKind.section := by rw [hL]
      have htx : (heapGet trip.2.2 sec0.1).text = pb.text := by rw [hL]
      have hc : (heapGet trip.2.2 sec0.1).children = [] := by rw [hL]
      have hslt : sec0.1 < trip.2.2.heap.length := by omega
      by_cases hdup : trip.1 = true ∧ trip.2.1.isSome = true
      · rw [if_pos hdup] at hok
        dsimp only [] at hok
        rw [if_pos hlen] at hok
        refine buildFinish _ pb cur sec0.1 idx t' ?_ ?_ hpb_ne ?_ ?_ ?_ ?_ hok
        · show wget trip.2.2.window 2 = some pb
          rw [htrip_win]
          exact h2
        · show wget trip.2.2.window 3 = some cur
          rw [htrip_win]
          exact h3
        · exact hslt
        · exact hk
        · exact htx
        · exact hc
      · rw [if_neg hdup] at hok
        by_cases hsib : ¬trip.1 = true ∧ trip.2.1.isSome = true
        · rw [if_pos hsib] at hok
          by_cases hlv : (heapGet trip.2.2 sec0.1).level < 2
          · rw [if_pos hlv] at hok
            dsimp only [] at hok
            exact Except.noConfusion hok
          · rw [if_neg hlv] at hok
            rcases hgt : trip.2.2.levels.get? ((heapGet trip.2.2 sec0.1).level - 2)
              with _ | tgt
            · rw [hgt] at hok
              dsimp only [] at hok
              exact Except.noConfusion hok
            · rw [hgt] at hok
              dsimp only [] at hok
              rw [if_pos hlen] at hok
              refine buildFinish _ pb cur sec0.1 idx t' ?_ ?_ hpb_ne ?_ ?_ ?_ ?_ hok
              · show wget trip.2.2.window 2 = some pb
                rw [htrip_win]
                exact h2
              · show wget trip.2.2.window 3 = some cur
                rw [htrip_win]
                exact h3
              · exact hslt
              · exact hk
              · exact htx
              · exact hc
        · rw [if_neg hsib] at hok
          dsimp only [] at hok
          rw [if_pos hlen] at hok
          refine buildFinish _ pb cur sec0.1 idx t' ?_ ?_ hpb_ne ?_ ?_ ?_ ?_ hok
          · show wget trip.2.2.window 2 = some pb
            rw [htrip_win]
            exact h2
          · show wget trip.2.2.window 3 = some cur
            rw [htrip_win]
            exact h3
          · exact hslt
          · exact hk
          · exact htx
          · exact hc


/-- C5: whenever Tree.section builds a Section node (a Title in the
one-back window cell, the just-consumed token a SectionAdornment) whose
underline token length differs from its title token length, the
returned Section carries exactly one child at build time: a
SystemMessage of severity warning whose explanation Paragraph reads
"Title underline too short." (e.g. the state reached while parsing
"Title\n===\n", see the witness). -/
theorem C5_short_underline_warning (t : PTree) (i pb cur : Item)
    (h2 : wget t.window 2 = some pb) (hpb : pb.typ = ItemType.title)
    (h3 : wget t.window 3 = some cur)
    (hi : i.typ = ItemType.sectionAdornment)
    (hlen : pb.length ≠ i.length)
    (idx : Nat) (t' : PTree)
    (hok : sectionFn t i = .ok (idx, t')) :
    (heapGet t' idx).kind = NKind.section
    ∧ (heapGet t' idx).text = pb.text
    ∧ ∃ m, (heapGet t' idx).children = [m]
        ∧ (heapGet t' m).kind = NKind.systemMessage
        ∧ (heapGet t' m).severity = SMLevel.levelWarning
        ∧ ∃ p q, (heapGet t' m).children = [p, q]
            ∧ (heapGet t' p).kind = NKind.paragraph
            ∧ (heapGet t' p).text = "Title underline too short.".toList := by
  unfold sectionFn at hok
  rw [show peekBackT t 1 = some pb from h2] at hok
  dsimp only [] at hok
  rw [if_neg (show ¬(pb.typ = ItemType.space) by rw [hpb]; decide)] at hok
  exact sectionBuild_short t i pb cur _ h2 hpb h3 hi hlen idx t' hok

/-- The Title item of the C5 witness state ("Title\n===\n" mid-parse). -/
def c5TitleItem : Item := ⟨.title, 1, 1, 5, "Title".toList⟩

/-- The short underline item of the C5 witness state. -/
def c5AdornItem : Item := ⟨.sectionAdornment, 7, 2, 3, "===".toList⟩

/-- The parser state just after consuming the adornment of
"Title\n===\n": Title one back, the adornment at tokenZero. -/
def c5State : PTree :=
  { initPTree [] with
    window := { t2 := some c5TitleItem, t3 := some c5AdornItem } }

/-- Witness for C5 at the "Title\n===\n" parse state. -/
theorem C5_witness :
    ∃ idx t', sectionFn c5State c5AdornItem = Except.ok (idx, t')
      ∧ ((heapGet t' idx).kind = NKind.section
        ∧ (heapGet t' idx).text = c5TitleItem.text
        ∧ ∃ m, (heapGet t' idx).children = [m]
            ∧ (heapGet t' m).kind = NKind.systemMessage
            ∧ (heapGet t' m).severity = SMLevel.levelWarning
            ∧ ∃ p q, (heapGet t' m).children = [p, q]
                ∧ (heapGet t' p).kind = NKind.paragraph
                ∧ (heapGet t' p).text = "Title underline too short.".toList) := by
  refine ⟨0, _, rfl, ?_⟩
  exact C5_short_underline_warning c5State c5AdornItem c5TitleItem c5AdornItem
    rfl rfl rfl rfl (by decide) 0 _ rfl

/-- Parser state right after the loop-head peek(1). -/
def peekedState (t : PTree) (it : Item) (rest : List Item) : PTree :=
  { t with tokenPeekCount := t.tokenPeekCount + 1,
           window := { t.window with t4 := some it },
           stream := rest }

/-- Parser state right after the following next(). -/
def steppedState (t : PTree) (it : Item) (rest : List Item) : PTree :=
  { t with tokenPeekCount := 0, tokenBackupCount := 0,
           window := shiftLeft { t.window with t4 := some it },
           stream := rest }

/-- C10: at every parser state of the shape the main loop maintains
(no pending peeks, the ahead cells of the window empty), peek(1) pulls
exactly the next lexer item, an immediately following next() delivers
that same item, exactly one item is consumed from the stream, and the
loop-head shape is re-established -- so successive next() calls deliver
the lexer's token sequence in order with nothing skipped or
duplicated. -/
theorem C10_peek_next_coherent (t : PTree) (it : Item) (rest : List Item)
    (h0 : t.tokenPeekCount = 0)
    (h4 : t.window.t4 = none) (h5 : t.window.t5 = none) (h6 : t.window.t6 = none)
    (hs : t.stream = it :: rest) :
    ∃ t1 t2, peekT 1 t = .ok (some it, t1)
      ∧ nextT t1 = .ok (some it, t2)
      ∧ t2.stream = rest
      ∧ wget t2.window tokenZero = some it
      ∧ t2.tokenPeekCount = 0
      ∧ t2.window.t4 = none ∧ t2.window.t5 = none ∧ t2.window.t6 = none := by
  have hw4 : wget t.window (tokenZero + t.tokenPeekCount + 0 + 1) = none := by
    rw [h0]
    exact h4
  have hset : wset t.window (tokenZero + (t.tokenPeekCount + 1) + 0) (some it) =
      some { t.window with t4 := some it } := by
    rw [h0]
    rfl
  refine ⟨peekedState t it rest, steppedState t it rest,
          ?_, ?_, ?_, ?_, ?_, ?_, ?_, ?_⟩
  · unfold peekT peekIter
    rw [if_neg (by decide : ¬(1 : Nat) < 1)]
    rw [if_neg (by omega : ¬ t.tokenPeekCount > 0)]
    rw [hw4, hs]
    dsimp only []
    rw [hset]
    rfl
  · unfold peekedState steppedState
    rw [h0]
    rfl
  · rfl
  · rfl
  · rfl
  · exact h5
  · exact h6
  · rfl

/-- A one-item parser state for the C10 witness. -/
def c10Item : Item := ⟨.paragraph, 1, 1, 1, "x".toList⟩

/-- Witness for C10 at a concrete fresh parser state. -/
theorem C10_witness :
    ∃ t1 t2, peekT 1 (initPTree [c10Item]) = .ok (some c10Item, t1)
      ∧ nextT t1 = .ok (some c10Item, t2)
      ∧ t2.stream = []
      ∧ wget t2.window tokenZero = some c10Item
      ∧ t2.tokenPeekCount = 0
      ∧ t2.window.t4 = none ∧ t2.window.t5 = none ∧ t2.window.t6 = none :=
  C10_peek_next_coherent (initPTree [c10Item]) c10Item [] rfl rfl rfl rfl rfl

end GoRst
